import Mathlib

/-!
Verification of the conversational onboarding flow (aiogram bot):
shallow embedding of the field validators, the legacy-probe, the
registration / legacy state machines and the user store, together with
proofs of the specified properties.  Strings are modelled as `List Char`
(the relevant ASCII/Cyrillic subset of Python `str`), machine dates as a
`Date` record of naturals, timestamps as abstract naturals.
-/

namespace Bot

/-- Whitespace characters recognised by Python's `\s` and `str.strip()`
(ASCII range, which is what the handlers ever receive). -/
def isWs (c : Char) : Bool :=
  c = ' ' || c = '\t' || c = '\n' || c = '\r' || c = '\x0b' || c = '\x0c'

/-- Python `str.strip()`: drop leading and trailing whitespace. -/
def pyStrip (s : List Char) : List Char :=
  ((s.dropWhile isWs).reverse.dropWhile isWs).reverse

/-- Latin letters, the `a-zA-Z` part of the name character class. -/
def isLatin (c : Char) : Bool :=
  ('a' ≤ c && c ≤ 'z') || ('A' ≤ c && c ≤ 'Z')

/-- Cyrillic letters, the `а-яА-ЯёЁ` part of the name character class. -/
def isCyrillic (c : Char) : Bool :=
  ('а' ≤ c && c ≤ 'я') || ('А' ≤ c && c ≤ 'Я') || c = 'ё' || c = 'Ё'

/-- One character of the name regex class `[a-zA-Zа-яА-ЯёЁ\s-]`. -/
def nameChar (c : Char) : Bool :=
  isLatin c || isCyrillic c || isWs c || c = '-'

/-- `re.fullmatch` of `^[a-zA-Zа-яА-ЯёЁ\s-]+$`: at least one character,
all of them in the class. -/
def nameFullmatch (s : List Char) : Bool :=
  !s.isEmpty && s.all nameChar

/-- Helper for `re.sub(r'\s+', ' ', s)`: the flag records whether the
previous character belonged to a whitespace run that has already been
replaced by a single space. -/
def collapseWsAux : Bool → List Char → List Char
  | _, [] => []
  | prevWs, c :: rest =>
    if isWs c then
      if prevWs then collapseWsAux true rest
      else ' ' :: collapseWsAux true rest
    else
      c :: collapseWsAux false rest

/-- `re.sub(r'\s+', ' ', s)`: collapse every whitespace run to one space. -/
def collapseWs (s : List Char) : List Char :=
  collapseWsAux false s

/-- The live name validator of `process_first_name` / `process_last_name`
(registration and legacy use the identical code): strip, reject empty,
reject unless the stripped text fullmatches the name class, then collapse
whitespace runs and strip again.  `none` is a rejection (the handler
re-prompts), `some v` is the normalized value that is persisted. -/
def processName (text : List Char) : Option (List Char) :=
  if (pyStrip text).isEmpty then none
  else if !nameFullmatch (pyStrip text) then none
  else some (pyStrip (collapseWs (pyStrip text)))

/-- Core of the email regex `^[^@]+@[^@]+\.[^@]+$` on a whole string:
exactly one `@`, a nonempty local part, and a dot in the interior of the
nonempty domain part. -/
def emailCore (s : List Char) : Bool :=
  s.count '@' = 1 &&
  !(s.takeWhile (fun c => c != '@')).isEmpty &&
  !(((s.dropWhile (fun c => c != '@')).drop 1)).isEmpty &&
  ((((s.dropWhile (fun c => c != '@')).drop 1).drop 1).dropLast.contains '.')

/-- `re.match(r'^[^@]+@[^@]+\.[^@]+$', s)`: Python's `$` also matches just
before one trailing newline. -/
def emailMatch (s : List Char) : Bool :=
  emailCore s || (s.getLast? = some '\n' && emailCore s.dropLast)

/-- The live email validator of `process_email`: strip, reject empty,
reject unless the regex matches; the stripped text is persisted. -/
def processEmail (text : List Char) : Option (List Char) :=
  if (pyStrip text).isEmpty then none
  else if !emailMatch (pyStrip text) then none
  else some (pyStrip text)

/-- A calendar date as stored by Python `datetime.date`. -/
structure Date where
  year : Nat
  month : Nat
  day : Nat
deriving DecidableEq, Repr

/-- Gregorian leap year, as used by `datetime`. -/
def isLeap (y : Nat) : Bool :=
  (y % 4 = 0 && y % 100 ≠ 0) || y % 400 = 0

/-- Number of days of a month. -/
def daysInMonth (y m : Nat) : Nat :=
  if m = 2 then (if isLeap y then 29 else 28)
  else if m = 4 || m = 6 || m = 9 || m = 11 then 30
  else 31

/-- A date `datetime.date` accepts (`MINYEAR = 1`, `MAXYEAR = 9999`). -/
def validDate (d : Date) : Bool :=
  1 ≤ d.year && d.year ≤ 9999 && 1 ≤ d.month && d.month ≤ 12 &&
  1 ≤ d.day && d.day ≤ daysInMonth d.year d.month

/-- Strict ordering of dates (Python compares dates chronologically,
which is lexicographic on (year, month, day)). -/
def dateLtB (a b : Date) : Bool :=
  a.year < b.year ||
  (a.year = b.year && (a.month < b.month || (a.month = b.month && a.day < b.day)))

/-- Python tuple comparison `(a₁, a₂) < (b₁, b₂)` (lexicographic). -/
def pairLt (a b : Nat × Nat) : Bool :=
  a.1 < b.1 || (a.1 = b.1 && a.2 < b.2)

/-- `today.year - birth.year - ((today.month, today.day) < (birth.month, birth.day))`,
the age formula shared by all birth-date call sites. -/
def ageYears (today birth : Date) : Int :=
  (today.year : Int) - (birth.year : Int) -
    (if pairLt (today.month, today.day) (birth.month, birth.day) then 1 else 0)

/-- ASCII digit test (the `\d` of the date regex on bot input). -/
def isDigitCh (c : Char) : Bool :=
  '0' ≤ c && c ≤ '9'

/-- `re.fullmatch(r'^\d{2}\.\d{2}\.\d{4}$', s)`. -/
def shapeOK : List Char → Bool
  | [a, b, c, d, e, f, g, h, i, j] =>
    isDigitCh a && isDigitCh b && c = '.' && isDigitCh d && isDigitCh e &&
    f = '.' && isDigitCh g && isDigitCh h && isDigitCh i && isDigitCh j
  | _ => false

/-- Numeric value of a digit character. -/
def digitVal (c : Char) : Nat :=
  c.toNat - '0'.toNat

/-- Reading the day, month and year fields of a `DD.MM.YYYY` token
(meaningful under `shapeOK`). -/
def parseShaped : List Char → Date
  | [a, b, _, d, e, _, g, h, i, j] =>
    { year := 1000 * digitVal g + 100 * digitVal h + 10 * digitVal i + digitVal j,
      month := 10 * digitVal d + digitVal e,
      day := 10 * digitVal a + digitVal b }
  | _ => { year := 0, month := 0, day := 0 }

/-- Outcome of the birth-date validation of `process_birth_date`; each
rejecting constructor corresponds to a distinct reply message of the
handler (wrong format / nonexistent date / future date / under 18 /
over 100). -/
inductive BirthResult
  | badFormat
  | badDate
  | future
  | tooYoung
  | tooOld
  | ok (d : Date)
deriving DecidableEq, Repr

/-- The birth-date validation of `process_birth_date` (identical code in
the registration flow, its edit handler, and the legacy flow): strip,
check the `DD.MM.YYYY` regex, let `strptime` check that the calendar date
exists, then reject future dates, age below 18 and age above 100. -/
def birthDateCheck (text : List Char) (today : Date) : BirthResult :=
  if !shapeOK (pyStrip text) then BirthResult.badFormat
  else if !validDate (parseShaped (pyStrip text)) then BirthResult.badDate
  else if dateLtB today (parseShaped (pyStrip text)) then BirthResult.future
  else if ageYears today (parseShaped (pyStrip text)) < 18 then BirthResult.tooYoung
  else if 100 < ageYears today (parseShaped (pyStrip text)) then BirthResult.tooOld
  else BirthResult.ok (parseShaped (pyStrip text))

/-- The states of the `Registration` states group. -/
inductive RegState
  | waiting_for_rules_consent
  | waiting_for_contact
  | waiting_for_first_name
  | waiting_for_last_name
  | waiting_for_gender
  | waiting_for_birth_date
  | waiting_for_email
  | waiting_for_review
  | waiting_for_edit_choice
  | waiting_for_edit_first_name
  | waiting_for_edit_last_name
  | waiting_for_edit_gender
  | waiting_for_edit_birth_date
  | waiting_for_edit_email
  | waiting_for_notifications_consent
deriving DecidableEq, Repr

/-- The states of the `LegacyUpgrade` states group. -/
inductive LegacyState
  | waiting_for_rules_consent
  | waiting_for_field
  | waiting_for_review
  | waiting_for_edit_choice
  | waiting_for_edit_field
  | waiting_for_notifications_consent
deriving DecidableEq, Repr

/-- Field identifiers of the legacy pending queue (`other` stands for any
string outside the five known identifiers, handled by the skip branches). -/
inductive Field
  | first_name
  | last_name
  | gender
  | birth_date
  | email
  | other
deriving DecidableEq, Repr

/-- The stored profile values read by `get_missing_fields` and by the
review rendering: each is optional (`none` = SQL NULL, `some []` = empty
string; both are falsy in Python). -/
structure Profile where
  first_name_input : Option (List Char)
  last_name_input : Option (List Char)
  gender : Option (List Char)
  birth_date : Option Date
  email : Option (List Char)
deriving DecidableEq, Repr

/-- Name probe of `get_missing_fields`:
`not v or not re.fullmatch(r'^[a-zA-Zа-яА-ЯёЁ\s-]+$', v)`. -/
def nameProbeMissing : Option (List Char) → Bool
  | none => true
  | some s => s.isEmpty || !nameFullmatch s

/-- Gender probe of `get_missing_fields`: `gender not in ['male', 'female']`. -/
def genderMissing (v : Option (List Char)) : Bool :=
  !(v = some ('m' :: 'a' :: 'l' :: 'e' :: []) ||
    v = some ('f' :: 'e' :: 'm' :: 'a' :: 'l' :: 'e' :: []))

/-- Birth-date probe of `get_missing_fields`: absent, or age outside
18..100 (the probe has no separate future-date branch). -/
def birthMissing : Option Date → Date → Bool
  | none, _ => true
  | some b, today => ageYears today b < 18 || 100 < ageYears today b

/-- Email probe of `get_missing_fields`:
`not v or not re.match(r'^[^@]+@[^@]+\.[^@]+$', v)`. -/
def emailMissing : Option (List Char) → Bool
  | none => true
  | some s => s.isEmpty || !emailMatch s

/-- `get_missing_fields` of the legacy entry point: probe the five stored
fields in the fixed order, collecting the failing ones. -/
def get_missing_fields (u : Profile) (today : Date) : List Field :=
  (if nameProbeMissing u.first_name_input then [Field.first_name] else []) ++
  (if nameProbeMissing u.last_name_input then [Field.last_name] else []) ++
  (if genderMissing u.gender then [Field.gender] else []) ++
  (if birthMissing u.birth_date today then [Field.birth_date] else []) ++
  (if emailMissing u.email then [Field.email] else [])

/-- `ask_next_field`: returns the state the conversation enters and the
queue it stores; unknown identifiers at the head are silently skipped,
an empty queue goes to the review. -/
def ask_next_field : List Field → LegacyState × List Field
  | [] => (LegacyState.waiting_for_review, [])
  | Field.other :: rest => ask_next_field rest
  | f :: rest => (LegacyState.waiting_for_field, f :: rest)

/-- `process_rules_accept` of the legacy flow, after persisting the rules
consent: compute the pending queue; a nonempty queue starts the field
collection, an empty one goes straight to the profile review. -/
def rulesAcceptNext (u : Profile) (today : Date) : LegacyState :=
  if (get_missing_fields u today).isEmpty then LegacyState.waiting_for_review
  else (ask_next_field (get_missing_fields u today)).1

/-- A typed value of a user-store patch (`**kwargs` of `update_user`). -/
inductive FVal
  | s (v : Option (List Char))
  | b (v : Bool)
  | d (v : Option Date)
  | t (v : Nat)
deriving DecidableEq, Repr

/-- A `**kwargs` patch: named keys with values. -/
abbrev Patch := List (String × FVal)

/-- A row of the `users` table, with exactly the columns declared on the
`User` model (timestamps are abstract naturals, the Telegram id an
integer). -/
structure UserRec where
  id : Int
  username : Option (List Char)
  first_name : Option (List Char)
  last_name : Option (List Char)
  is_active : Bool
  created_at : Nat
  updated_at : Nat
  rules_accepted : Bool
  notifications_allowed : Bool
  is_registered : Bool
  phone_number : Option (List Char)
  full_name : Option (List Char)
  preferred_name : Option (List Char)
  gender : Option (List Char)
  birth_date : Option Date
  email : Option (List Char)
deriving DecidableEq, Repr

/-- `hasattr(user, k)` for the declared columns of the `User` model. -/
def hasAttrB (k : String) : Bool :=
  k == "id" || k == "username" || k == "first_name" || k == "last_name" ||
  k == "is_active" || k == "created_at" || k == "updated_at" ||
  k == "rules_accepted" || k == "notifications_allowed" || k == "is_registered" ||
  k == "phone_number" || k == "full_name" || k == "preferred_name" ||
  k == "gender" || k == "birth_date" || k == "email"

/-- `setattr(user, k, v)` on a recognised column (handler patches always
carry the column's type; a value of the wrong type leaves the row as is). -/
def setAttr (u : UserRec) (k : String) (v : FVal) : UserRec :=
  if k == "id" then (match v with | FVal.t x => { u with id := (x : Int) } | _ => u)
  else if k == "username" then (match v with | FVal.s x => { u with username := x } | _ => u)
  else if k == "first_name" then (match v with | FVal.s x => { u with first_name := x } | _ => u)
  else if k == "last_name" then (match v with | FVal.s x => { u with last_name := x } | _ => u)
  else if k == "is_active" then (match v with | FVal.b x => { u with is_active := x } | _ => u)
  else if k == "created_at" then (match v with | FVal.t x => { u with created_at := x } | _ => u)
  else if k == "updated_at" then (match v with | FVal.t x => { u with updated_at := x } | _ => u)
  else if k == "rules_accepted" then (match v with | FVal.b x => { u with rules_accepted := x } | _ => u)
  else if k == "notifications_allowed" then (match v with | FVal.b x => { u with notifications_allowed := x } | _ => u)
  else if k == "is_registered" then (match v with | FVal.b x => { u with is_registered := x } | _ => u)
  else if k == "phone_number" then (match v with | FVal.s x => { u with phone_number := x } | _ => u)
  else if k == "full_name" then (match v with | FVal.s x => { u with full_name := x } | _ => u)
  else if k == "preferred_name" then (match v with | FVal.s x => { u with preferred_name := x } | _ => u)
  else if k == "gender" then (match v with | FVal.s x => { u with gender := x } | _ => u)
  else if k == "birth_date" then (match v with | FVal.d x => { u with birth_date := x } | _ => u)
  else if k == "email" then (match v with | FVal.s x => { u with email := x } | _ => u)
  else u

/-- `Database.update_user`: set every recognised key of the patch (an
unrecognised key is logged and ignored), refresh `updated_at`, return the
updated row. -/
def update_user (u : UserRec) (now : Nat) (patch : Patch) : UserRec :=
  let u' := patch.foldl (fun acc kv => setAttr acc kv.1 kv.2) u
  { u' with updated_at := now }

/-- An inbound event while the registration flow awaits the contact:
either a structured contact payload (with the id of the account the
contact belongs to and a phone number) or anything else (free text). -/
inductive ContactEvent
  | contact (cuid : Int) (phone : List Char)
  | text (s : List Char)
deriving DecidableEq, Repr

/-- Phone normalization of `process_contact`: prefix `+` unless already
present. -/
def normPhone (phone : List Char) : List Char :=
  if phone.head? = some '+' then phone else '+' :: phone

/-- `process_contact` / `process_contact_invalid`, dispatched on events in
the `waiting_for_contact` state: a contact of the user themselves is
normalized and persisted and the flow advances to the first-name step;
a foreign contact or a non-contact message re-prompts without a state
change or a write. -/
def process_contact (selfId : Int) (e : ContactEvent) :
    Option (String × FVal) × RegState :=
  match e with
  | ContactEvent.contact cuid phone =>
    if cuid ≠ selfId then (none, RegState.waiting_for_contact)
    else (some ("phone_number", FVal.s (some (normPhone phone))), RegState.waiting_for_first_name)
  | ContactEvent.text _ => (none, RegState.waiting_for_contact)

/-- `process_first_name` of the registration flow: on rejection the state
and store are untouched; on success the cleaned name is written under the
`first_name_input` key and the flow moves to the last-name step. -/
def reg_process_first_name (s : List Char) :
    Option (String × FVal) × RegState :=
  match processName s with
  | none => (none, RegState.waiting_for_first_name)
  | some v => (some ("first_name_input", FVal.s (some v)), RegState.waiting_for_last_name)

/-- `process_birth_date` of the registration flow: every rejecting branch
returns with no write and the state unchanged; acceptance writes the
parsed calendar date under `birth_date` and moves to the email step. -/
def reg_process_birth_date (s : List Char) (today : Date) :
    RegState × Option (String × FVal) :=
  match birthDateCheck s today with
  | BirthResult.ok d => (RegState.waiting_for_email, some ("birth_date", FVal.d (some d)))
  | _ => (RegState.waiting_for_birth_date, none)

/-- `process_field_input` of the legacy flow: validate the text against
the field at the head of the pending queue; rejection re-prompts leaving
the queue, the store and the state untouched; success writes the value,
pops the queue and asks the next field (review when the queue empties).
A text received while `gender` (which only arrives via buttons) or an
unknown identifier heads the queue falls into the skip branch. -/
def process_field_input (queue : List Field) (s : List Char) (today : Date) :
    List Field × Option (String × FVal) × LegacyState :=
  match queue with
  | [] => ([], none, LegacyState.waiting_for_review)
  | f :: rest =>
    match f with
    | Field.first_name =>
      match processName s with
      | none => (queue, none, LegacyState.waiting_for_field)
      | some v => ((ask_next_field rest).2, some ("first_name_input", FVal.s (some v)), (ask_next_field rest).1)
    | Field.last_name =>
      match processName s with
      | none => (queue, none, LegacyState.waiting_for_field)
      | some v => ((ask_next_field rest).2, some ("last_name_input", FVal.s (some v)), (ask_next_field rest).1)
    | Field.birth_date =>
      match birthDateCheck s today with
      | BirthResult.ok d => ((ask_next_field rest).2, some ("birth_date", FVal.d (some d)), (ask_next_field rest).1)
      | _ => (queue, none, LegacyState.waiting_for_field)
    | Field.email =>
      match processEmail s with
      | none => (queue, none, LegacyState.waiting_for_field)
      | some v => ((ask_next_field rest).2, some ("email", FVal.s (some v)), (ask_next_field rest).1)
    | _ => ((ask_next_field rest).2, none, (ask_next_field rest).1)

/-- Edit targets stored by `process_edit_choice` of the legacy flow. -/
inductive EditTarget
  | e_first_name
  | e_last_name
  | e_birth_date
  | e_email
  | e_none
deriving DecidableEq, Repr

/-- `process_edit_field` of the legacy flow (text fields; gender edits
arrive via a callback handler of the same shape): identical validator
dispatch to `process_field_input`, but on success it returns
unconditionally to the review and never touches the pending queue. -/
def process_edit_field (target : EditTarget) (s : List Char) (today : Date) :
    Option (String × FVal) × LegacyState :=
  match target with
  | EditTarget.e_first_name =>
    match processName s with
    | none => (none, LegacyState.waiting_for_edit_field)
    | some v => (some ("first_name_input", FVal.s (some v)), LegacyState.waiting_for_review)
  | EditTarget.e_last_name =>
    match processName s with
    | none => (none, LegacyState.waiting_for_edit_field)
    | some v => (some ("last_name_input", FVal.s (some v)), LegacyState.waiting_for_review)
  | EditTarget.e_birth_date =>
    match birthDateCheck s today with
    | BirthResult.ok d => (some ("birth_date", FVal.d (some d)), LegacyState.waiting_for_review)
    | _ => (none, LegacyState.waiting_for_edit_field)
  | EditTarget.e_email =>
    match processEmail s with
    | none => (none, LegacyState.waiting_for_edit_field)
    | some v => (some ("email", FVal.s (some v)), LegacyState.waiting_for_review)
  | EditTarget.e_none => (none, LegacyState.waiting_for_review)

/-- `process_edit_first_name` of the registration flow: same validator,
on success writes the name and re-renders the review. -/
def reg_process_edit_first_name (s : List Char) :
    Option (String × FVal) × RegState :=
  match processName s with
  | none => (none, RegState.waiting_for_edit_first_name)
  | some v => (some ("first_name_input", FVal.s (some v)), RegState.waiting_for_review)

/-- Observable outcome of a notifications-consent handler: the patch it
sends to the store, whether the session state is cleared, and how many
times the main-menu hand-off is invoked. -/
structure ConsentOut where
  patch : Patch
  sessionCleared : Bool
  menuCalls : Nat
deriving DecidableEq, Repr

/-- `process_notifications_consent` of the registration flow: persist the
boolean and `is_registered = True`, then `show_main_menu` (which clears
the FSM state and sends the menu once). -/
def reg_notifications_consent (choiceYes : Bool) : ConsentOut :=
  { patch := [("notifications_allowed", FVal.b choiceYes), ("is_registered", FVal.b true)],
    sessionCleared := true,
    menuCalls := 1 }

/-- `process_notifications_consent` of the legacy flow: the handler sends
the boolean, a `notifications_allowed_at` timestamp and `is_legacy = False`
to the store, then `show_main_menu`. -/
def legacy_notifications_consent (choiceYes : Bool) (now : Nat) : ConsentOut :=
  { patch := [("notifications_allowed", FVal.b choiceYes),
              ("notifications_allowed_at", FVal.t now),
              ("is_legacy", FVal.b false)],
    sessionCleared := true,
    menuCalls := 1 }

/-- The keys the registration and legacy handlers patch that name no
attribute of the `User` model. -/
def ghostKeys : List String :=
  ["first_name_input", "last_name_input", "rules_accepted_at",
   "notifications_allowed_at", "is_legacy"]

/-- Adjacent characters are never both whitespace. -/
def noTwoWs (l : List Char) : Prop :=
  List.Chain' (fun a b => ¬(isWs a = true ∧ isWs b = true)) l

/-- The fixed probing order of the legacy entry point. -/
def fieldOrder : List Field :=
  [Field.first_name, Field.last_name, Field.gender, Field.birth_date, Field.email]

/-- Whether a single stored field fails its probe (is absent or invalid). -/
def fieldFails (u : Profile) (today : Date) : Field → Bool
  | Field.first_name => nameProbeMissing u.first_name_input
  | Field.last_name => nameProbeMissing u.last_name_input
  | Field.gender => genderMissing u.gender
  | Field.birth_date => birthMissing u.birth_date today
  | Field.email => emailMissing u.email
  | Field.other => false

/-- A fixed reference date used by the concrete test vectors. -/
def t0 : Date := { year := 2026, month := 10, day := 12 }

/-- A stored legacy profile with valid names and gender, an absent email
and a birth date giving age 150 at `t0`. -/
def pLegacy : Profile :=
  { first_name_input := some ['И', 'в', 'а', 'н'],
    last_name_input := some ['П', 'е', 'т', 'р', 'о', 'в'],
    gender := some ['m', 'a', 'l', 'e'],
    birth_date := some { year := 1876, month := 1, day := 1 },
    email := none }

/-- A stored legacy profile where no field fails its probe at `t0`. -/
def pComplete : Profile :=
  { first_name_input := some ['И', 'в', 'а', 'н'],
    last_name_input := some ['П', 'е', 'т', 'р', 'о', 'в'],
    gender := some ['m', 'a', 'l', 'e'],
    birth_date := some { year := 1990, month := 12, day := 25 },
    email := some ['a', '@', 'b', '.', 'c', 'o'] }

/-- A concrete stored row used by the concrete test vectors. -/
def u0 : UserRec :=
  { id := 42, username := none, first_name := none, last_name := none,
    is_active := true, created_at := 5, updated_at := 5,
    rules_accepted := true, notifications_allowed := false,
    is_registered := false, phone_number := some ('+' :: '7' :: []),
    full_name := none, preferred_name := none,
    gender := some ('m' :: 'a' :: 'l' :: 'e' :: []),
    birth_date := some { year := 1990, month := 12, day := 25 },
    email := none }

/-! ### Helper lemmas about stripping and whitespace collapsing -/

/-- Whitespace characters are allowed name characters. -/
theorem nameChar_of_isWs {c : Char} (h : isWs c = true) : nameChar c = true := by
  simp [nameChar, h]

/-- Dropping a prefix of characters that all satisfy an implied predicate
does not change an `all` over that predicate. -/
theorem all_dropWhile_of_imp (p q : Char → Bool) (h : ∀ c, p c = true → q c = true) :
    ∀ l : List Char, (l.dropWhile p).all q = l.all q := by
  intro l
  induction l with
  | nil => rfl
  | cons a t ih =>
    by_cases ha : p a = true
    · rw [List.dropWhile_cons_of_pos ha, ih, List.all_cons, h a ha, Bool.true_and]
    · rw [List.dropWhile_cons_of_neg ha]

/-- Stripping whitespace does not change an `all` over a predicate that
holds on whitespace. -/
theorem all_pyStrip (q : Char → Bool) (h : ∀ c, isWs c = true → q c = true)
    (l : List Char) : (pyStrip l).all q = l.all q := by
  unfold pyStrip
  rw [List.all_reverse, all_dropWhile_of_imp isWs q h, List.all_reverse,
    all_dropWhile_of_imp isWs q h]

/-- Dropping characters that fail a filter does not change the filter. -/
theorem filter_dropWhile_of_imp (p q : Char → Bool) (h : ∀ c, p c = true → q c = false) :
    ∀ l : List Char, (l.dropWhile p).filter q = l.filter q := by
  intro l
  induction l with
  | nil => rfl
  | cons a t ih =>
    by_cases ha : p a = true
    · rw [List.dropWhile_cons_of_pos ha, ih, List.filter_cons, h a ha]
      simp
    · rw [List.dropWhile_cons_of_neg ha]

/-- Stripping whitespace does not change the non-whitespace content. -/
theorem filter_pyStrip (l : List Char) :
    (pyStrip l).filter (fun c => !isWs c) = l.filter (fun c => !isWs c) := by
  have himp : ∀ c, isWs c = true → (!isWs c) = false := by intro c hc; simp [hc]
  unfold pyStrip
  rw [List.filter_reverse, filter_dropWhile_of_imp _ _ himp, List.filter_reverse,
    filter_dropWhile_of_imp _ _ himp, List.reverse_reverse]

/-- A space is whitespace. -/
theorem isWs_space : isWs ' ' = true := by decide

/-- Unfolding: a whitespace head inside a run is skipped. -/
theorem collapseWsAux_cons_ws_true {a : Char} {t : List Char} (ha : isWs a = true) :
    collapseWsAux true (a :: t) = collapseWsAux true t := by
  simp [collapseWsAux, ha]

/-- Unfolding: a whitespace head starting a run becomes one space. -/
theorem collapseWsAux_cons_ws_false {a : Char} {t : List Char} (ha : isWs a = true) :
    collapseWsAux false (a :: t) = ' ' :: collapseWsAux true t := by
  simp [collapseWsAux, ha]

/-- Unfolding: a non-whitespace head is copied. -/
theorem collapseWsAux_cons_nws {a : Char} {t : List Char} (b : Bool) (ha : isWs a = false) :
    collapseWsAux b (a :: t) = a :: collapseWsAux false t := by
  simp [collapseWsAux, ha]

/-- Collapsing whitespace runs does not change the non-whitespace content. -/
theorem filter_collapseWsAux (b : Bool) (l : List Char) :
    (collapseWsAux b l).filter (fun c => !isWs c) = l.filter (fun c => !isWs c) := by
  induction l generalizing b with
  | nil => rfl
  | cons a t ih =>
    by_cases ha : isWs a = true
    · cases b with
      | true =>
        rw [collapseWsAux_cons_ws_true ha, ih true, List.filter_cons]
        simp [ha]
      | false =>
        rw [collapseWsAux_cons_ws_false ha, List.filter_cons, List.filter_cons]
        simp only [isWs_space, ha, Bool.not_true, Bool.false_eq_true, if_false]
        exact ih true
    · rw [Bool.not_eq_true] at ha
      rw [collapseWsAux_cons_nws b ha, List.filter_cons, List.filter_cons]
      simp only [ha, Bool.not_false, if_true]
      rw [ih false]

/-- Every character of a collapsed string is a space or a character of
the original string. -/
theorem mem_collapseWsAux {c : Char} :
    ∀ (b : Bool) (l : List Char), c ∈ collapseWsAux b l → c = ' ' ∨ c ∈ l := by
  intro b l
  induction l generalizing b with
  | nil => simp [collapseWsAux]
  | cons a t ih =>
    intro hc
    by_cases ha : isWs a = true
    · cases b with
      | true =>
        simp only [collapseWsAux, ha, if_pos] at hc
        rcases ih true hc with h | h
        · exact Or.inl h
        · exact Or.inr (List.mem_cons_of_mem a h)
      | false =>
        simp only [collapseWsAux, ha, if_pos] at hc
        rcases List.mem_cons.mp hc with h | h
        · exact Or.inl h
        · rcases ih true h with h' | h'
          · exact Or.inl h'
          · exact Or.inr (List.mem_cons_of_mem a h')
    · simp only [collapseWsAux, ha, if_neg, Bool.not_eq_true] at hc
      rcases List.mem_cons.mp hc with h | h
      · exact Or.inr (h ▸ List.mem_cons_self a t)
      · rcases ih false h with h' | h'
        · exact Or.inl h'
        · exact Or.inr (List.mem_cons_of_mem a h')

/-- Every whitespace character of a collapsed string is a plain space. -/
theorem ws_mem_collapseWsAux {c : Char} (hw : isWs c = true) :
    ∀ (b : Bool) (l : List Char), c ∈ collapseWsAux b l → c = ' ' := by
  intro b l
  induction l generalizing b with
  | nil => simp [collapseWsAux]
  | cons a t ih =>
    intro hc
    by_cases ha : isWs a = true
    · cases b with
      | true =>
        simp only [collapseWsAux, ha, if_pos] at hc
        exact ih true hc
      | false =>
        simp only [collapseWsAux, ha, if_pos] at hc
        rcases List.mem_cons.mp hc with h | h
        · exact h
        · exact ih true h
    · simp only [collapseWsAux, ha, if_neg, Bool.not_eq_true] at hc
      rcases List.mem_cons.mp hc with h | h
      · rw [h] at hw; rw [hw] at ha; exact absurd rfl ha
      · exact ih false h

/-- After a collapsed whitespace run, the next emitted character is not
whitespace. -/
theorem head?_collapseWsAux_true {c : Char} :
    ∀ l : List Char, (collapseWsAux true l).head? = some c → isWs c = false := by
  intro l
  induction l with
  | nil => simp [collapseWsAux]
  | cons a t ih =>
    intro hc
    by_cases ha : isWs a = true
    · simp only [collapseWsAux, ha, if_pos] at hc
      exact ih hc
    · simp only [collapseWsAux, ha, if_neg, Bool.not_eq_true, List.head?_cons,
        Option.some.injEq] at hc
      rw [← hc]
      exact Bool.not_eq_true _ ▸ (by simpa using ha)

/-- A collapsed string never holds two adjacent whitespace characters. -/
theorem noTwoWs_collapseWsAux : ∀ (b : Bool) (l : List Char), noTwoWs (collapseWsAux b l) := by
  intro b l
  induction l generalizing b with
  | nil => simp [collapseWsAux, noTwoWs]
  | cons a t ih =>
    by_cases ha : isWs a = true
    · cases b with
      | true => simpa [collapseWsAux, ha] using ih true
      | false =>
        simp only [collapseWsAux, ha, if_true, Bool.false_eq_true, if_false, noTwoWs]
        rw [List.chain'_cons']
        refine ⟨?_, ih true⟩
        intro c hc hcontra
        have := head?_collapseWsAux_true _ hc
        rw [hcontra.2] at this
        simp at this
    · simp only [collapseWsAux, ha, if_neg, Bool.not_eq_true, noTwoWs]
      rw [List.chain'_cons']
      refine ⟨?_, ih false⟩
      intro c _ hcontra
      rw [hcontra.1] at ha
      exact absurd rfl ha

/-- The stripped string is a sublist of the original. -/
theorem pyStrip_sublist (l : List Char) : List.Sublist (pyStrip l) l := by
  unfold pyStrip
  have h1 : List.Sublist ((l.dropWhile isWs).reverse.dropWhile isWs)
      (l.dropWhile isWs).reverse :=
    (List.dropWhile_suffix isWs).sublist
  have h2 : List.Sublist (((l.dropWhile isWs).reverse.dropWhile isWs).reverse)
      (l.dropWhile isWs) := by
    have := h1.reverse
    rwa [List.reverse_reverse] at this
  exact h2.trans (List.dropWhile_suffix isWs).sublist

/-- Membership in the stripped string implies membership in the original. -/
theorem mem_pyStrip {c : Char} {l : List Char} (h : c ∈ pyStrip l) : c ∈ l :=
  (pyStrip_sublist l).subset h

/-- Stripping preserves the absence of adjacent whitespace pairs. -/
theorem noTwoWs_pyStrip {l : List Char} (h : noTwoWs l) : noTwoWs (pyStrip l) := by
  unfold noTwoWs at *
  set R : Char → Char → Prop := fun a b => ¬(isWs a = true ∧ isWs b = true) with hR
  have hsymm : ∀ a b, R a b → flip R a b := by
    intro a b hab
    simp only [flip, hR]
    intro hcontra
    exact hab ⟨hcontra.2, hcontra.1⟩
  have step1 : List.Chain' R (l.dropWhile isWs) :=
    h.suffix (List.dropWhile_suffix isWs)
  have step2 : List.Chain' R (l.dropWhile isWs).reverse :=
    List.chain'_reverse.mpr (step1.imp hsymm)
  have step3 : List.Chain' R ((l.dropWhile isWs).reverse.dropWhile isWs) :=
    step2.suffix (List.dropWhile_suffix isWs)
  exact List.chain'_reverse.mpr (step3.imp hsymm)

/-- The head of a `dropWhile` fails the dropped predicate. -/
theorem head?_dropWhile {p : Char → Bool} {c : Char} :
    ∀ l : List Char, (l.dropWhile p).head? = some c → p c = false := by
  intro l
  induction l with
  | nil => simp
  | cons a t ih =>
    intro hc
    by_cases ha : p a = true
    · rw [List.dropWhile_cons_of_pos ha] at hc
      exact ih hc
    · rw [List.dropWhile_cons_of_neg ha, List.head?_cons, Option.some.injEq] at hc
      rw [← hc]
      simpa using ha

/-- The first character of a stripped string is not whitespace. -/
theorem head?_pyStrip {c : Char} {l : List Char} (h : (pyStrip l).head? = some c) :
    isWs c = false := by
  unfold pyStrip at h
  rw [List.head?_reverse] at h
  have hne : (l.dropWhile isWs).reverse.dropWhile isWs ≠ [] := by
    intro hnil
    rw [hnil] at h
    simp at h
  obtain ⟨w, hw⟩ := List.dropWhile_suffix (l := (l.dropWhile isWs).reverse) isWs
  have hlast : (l.dropWhile isWs).reverse.getLast? = some c := by
    rw [← hw, List.getLast?_append_of_ne_nil _ hne]
    exact h
  rw [List.getLast?_reverse] at hlast
  exact head?_dropWhile _ hlast

/-- The last character of a stripped string is not whitespace. -/
theorem getLast?_pyStrip {c : Char} {l : List Char} (h : (pyStrip l).getLast? = some c) :
    isWs c = false := by
  unfold pyStrip at h
  rw [List.getLast?_reverse] at h
  exact head?_dropWhile _ h

/-- Stripping preserves an `all nameChar` check (whitespace is in the
name class). -/
theorem all_nameChar_pyStrip (s : List Char) :
    (pyStrip s).all nameChar = s.all nameChar :=
  all_pyStrip nameChar (fun _ hc => nameChar_of_isWs hc) s

/-- `any` of the complement is the negation of `all`. -/
theorem any_not_eq_not_all (s : List Char) :
    (s.any fun c => !nameChar c) = !s.all nameChar := by
  rw [List.all_eq_not_any_not, Bool.not_not]

/-! ### Claim theorems -/

/-- Claim C5: the name validator (used verbatim for first and last names
in both flows) rejects exactly the inputs that are empty or whitespace-only
after trimming or contain a character outside the allowed class (Latin or
Cyrillic letters, whitespace, hyphen) — in particular every digit or other
punctuation mark forces rejection; an accepted input is normalized before
persistence: its non-whitespace content is kept verbatim, every whitespace
character becomes a single plain space, no two adjacent whitespace
characters survive, and both ends are trimmed of whitespace. -/
theorem name_validation :
    (∀ s : List Char, processName s = none ↔
        ((pyStrip s).isEmpty = true ∨ s.any (fun c => !nameChar c) = true)) ∧
    (∀ s out : List Char, processName s = some out →
        out.isEmpty = false ∧
        out.all nameChar = true ∧
        out.filter (fun c => !isWs c) = s.filter (fun c => !isWs c) ∧
        (∀ c ∈ out, isWs c = true → c = ' ') ∧
        noTwoWs out ∧
        (∀ c, out.head? = some c → isWs c = false) ∧
        (∀ c, out.getLast? = some c → isWs c = false)) := by
  constructor
  · intro s
    have hall := all_nameChar_pyStrip s
    have hany := any_not_eq_not_all s
    unfold processName nameFullmatch
    cases hie : (pyStrip s).isEmpty <;> cases hsa : s.all nameChar <;>
      rw [hsa] at hall <;> simp [hie, hall, hany, hsa]
  · intro s out h
    unfold processName at h
    by_cases h1 : (pyStrip s).isEmpty = true
    · rw [if_pos h1] at h
      exact absurd h (by simp)
    · rw [if_neg h1] at h
      cases hfm : nameFullmatch (pyStrip s) with
      | false =>
        rw [if_pos (by rw [hfm]; rfl)] at h
        exact absurd h (by simp)
      | true =>
        rw [if_neg (by rw [hfm]; simp)] at h
        have hout : out = pyStrip (collapseWs (pyStrip s)) := by
          injection h with h'
          exact h'.symm
        unfold nameFullmatch at hfm
        rw [Bool.and_eq_true] at hfm
        obtain ⟨-, hallp⟩ := hfm
        have hfil2 : out.filter (fun c => !isWs c) = (pyStrip s).filter (fun c => !isWs c) := by
          rw [hout, filter_pyStrip, collapseWs, filter_collapseWsAux]
        have hpsne : pyStrip s ≠ [] := by
          intro hh
          rw [hh] at h1
          exact h1 rfl
        obtain ⟨c, t, hct⟩ : ∃ c t, pyStrip s = c :: t := by
          cases hcc : pyStrip s with
          | nil => exact absurd hcc hpsne
          | cons c t => exact ⟨c, t, rfl⟩
        have hcw : isWs c = false := head?_pyStrip (by rw [hct]; rfl)
        have hcf : c ∈ out := by
          apply List.mem_of_mem_filter (p := fun x => !isWs x)
          rw [hfil2, hct, List.filter_cons, hcw]
          simp
        refine ⟨?_, ?_, hfil2.trans (filter_pyStrip s), ?_, ?_, ?_, ?_⟩
        · rw [Bool.eq_false_iff]
          intro hcon
          rw [List.isEmpty_iff.mp hcon] at hcf
          exact absurd hcf (List.not_mem_nil c)
        · rw [List.all_eq_true]
          intro d hd
          rcases mem_collapseWsAux false (pyStrip s) (mem_pyStrip (hout ▸ hd)) with h' | h'
          · rw [h']
            decide
          · exact List.all_eq_true.mp hallp d h'
        · intro d hd hw
          exact ws_mem_collapseWsAux hw false (pyStrip s) (mem_pyStrip (hout ▸ hd))
        · rw [hout]
          exact noTwoWs_pyStrip (noTwoWs_collapseWsAux false (pyStrip s))
        · intro d hd
          exact head?_pyStrip (hout ▸ hd)
        · intro d hd
          exact getLast?_pyStrip (hout ▸ hd)

/-- Witness for C5: a concrete accepted input with an inner double space,
evaluated through the theorem. -/
theorem name_validation_witness :
    (['A', ' ', ' ', 'b'] : List Char).isEmpty = false ∧
    (['A', ' ', 'b'] : List Char) = ['A', ' ', 'b'] ∧
    (['A', ' ', 'b'] : List Char).isEmpty = false ∧
    (['A', ' ', 'b'] : List Char).all nameChar = true ∧
    (['A', ' ', 'b'] : List Char).filter (fun c => !isWs c) =
      (['A', ' ', ' ', 'b'] : List Char).filter (fun c => !isWs c) ∧
    (∀ c ∈ (['A', ' ', 'b'] : List Char), isWs c = true → c = ' ') ∧
    noTwoWs ['A', ' ', 'b'] ∧
    (∀ c, (['A', ' ', 'b'] : List Char).head? = some c → isWs c = false) ∧
    (∀ c, (['A', ' ', 'b'] : List Char).getLast? = some c → isWs c = false) :=
  ⟨by decide, rfl, name_validation.2 ['A', ' ', ' ', 'b'] ['A', ' ', 'b'] (by decide)⟩

/-- Counterexample for C3: on the whitespace-only stored name consisting
of a single space, the legacy probe classifies the name as present and
valid (its regex class contains whitespace and it never strips), while
the live name validator rejects the same string as empty after trimming. -/
theorem probe_vs_live_name_mismatch :
    nameProbeMissing (some [' ']) = false ∧ processName [' '] = none := by
  decide

/-- Claim C3 (amended): for every stored name that is not empty and not
whitespace-only, the legacy probe accepts exactly when the live name
validator accepts; whitespace-only values are the only disagreement. -/
theorem probe_matches_live_name_off_blank (s : List Char) (h : pyStrip s ≠ []) :
    nameProbeMissing (some s) = false ↔ (processName s).isSome = true := by
  have hall := all_nameChar_pyStrip s
  have hsne : s ≠ [] := by
    intro hs
    rw [hs] at h
    exact h rfl
  have hie : (pyStrip s).isEmpty = false := List.isEmpty_eq_false.mpr h
  have hse : s.isEmpty = false := List.isEmpty_eq_false.mpr hsne
  unfold nameProbeMissing processName
  cases hsa : s.all nameChar <;> rw [hsa] at hall <;>
    simp [hie, hse, hall, hsa, nameFullmatch]

/-- Witness for the amended C3 at the stored name Anna. -/
theorem probe_matches_live_name_off_blank_witness :
    pyStrip ['A', 'n', 'n', 'a'] ≠ [] ∧
    (nameProbeMissing (some ['A', 'n', 'n', 'a']) = false ↔
      (processName ['A', 'n', 'n', 'a']).isSome = true) :=
  ⟨by decide, probe_matches_live_name_off_blank ['A', 'n', 'n', 'a'] (by decide)⟩

/-- Claim C1: a text submitted in the awaiting-birth-date state (text
handlers first trim surrounding whitespace) is accepted exactly when the
trimmed token matches the strict DD.MM.YYYY shape, denotes an existing
calendar date, is not after today, and the age
(today.year − birth.year, minus 1 when (today.month, today.day) <
(birth.month, birth.day)) lies in [18, 100]; the accepted value persisted
under the `birth_date` column is exactly the written calendar date. At
the reference date 2026-10-12, the birth date 13.10.2008 (exactly 17
years and 364 days old) is rejected as too young while 12.10.2008
(exactly 18 years) is accepted. -/
theorem birth_date_validation :
    (∀ (s : List Char) (today d : Date),
        birthDateCheck s today = BirthResult.ok d ↔
          (shapeOK (pyStrip s) = true ∧ parseShaped (pyStrip s) = d ∧
           validDate d = true ∧ dateLtB today d = false ∧
           18 ≤ ageYears today d ∧ ageYears today d ≤ 100)) ∧
    (∀ (u : UserRec) (now : Nat) (d : Date),
        (update_user u now [("birth_date", FVal.d (some d))]).birth_date = some d) ∧
    birthDateCheck ['1', '3', '.', '1', '0', '.', '2', '0', '0', '8'] t0 = BirthResult.tooYoung ∧
    birthDateCheck ['1', '2', '.', '1', '0', '.', '2', '0', '0', '8'] t0 =
      BirthResult.ok { year := 2008, month := 10, day := 12 } := by
  refine ⟨?_, ?_, by decide, by decide⟩
  · intro s today d
    unfold birthDateCheck
    constructor
    · intro h
      split_ifs at h with h1 h2 h3 h4 h5 <;> cases h
      refine ⟨by simpa using Bool.eq_false_iff.mpr h1, rfl,
        by simpa using Bool.eq_false_iff.mpr h2,
        Bool.eq_false_iff.mpr h3, not_lt.mp h4, not_lt.mp h5⟩
    · rintro ⟨hs, rfl, hv, hf, h18, h100⟩
      rw [if_neg (by rw [hs]; simp), if_neg (by rw [hv]; simp),
        if_neg (by rw [hf]; simp), if_neg (not_lt.mpr h18), if_neg (not_lt.mpr h100)]
  · intro u now d
    rfl

/-- Claim C4: the legacy pending queue holds exactly the failing or
absent fields, in the fixed order first name, last name, gender, birth
date, email; the stored user `pLegacy` (valid names and gender, absent
email, birth date giving age 150) yields exactly the queue
[birth_date, email]; a record where nothing fails yields the empty queue
and the rules-consent step then goes straight to the review. -/
theorem missing_fields_queue :
    (∀ (u : Profile) (today : Date),
        get_missing_fields u today = fieldOrder.filter (fieldFails u today)) ∧
    (∀ (u : Profile) (today : Date),
        get_missing_fields u today = [] →
        rulesAcceptNext u today = LegacyState.waiting_for_review) ∧
    get_missing_fields pLegacy t0 = [Field.birth_date, Field.email] ∧
    get_missing_fields pComplete t0 = [] ∧
    rulesAcceptNext pComplete t0 = LegacyState.waiting_for_review := by
  refine ⟨?_, ?_, by decide, by decide, by decide⟩
  · intro u today
    unfold get_missing_fields fieldOrder
    simp only [List.filter_cons, List.filter_nil, fieldFails]
    split_ifs <;> rfl
  · intro u today h
    unfold rulesAcceptNext
    rw [h]
    rfl

/-- Witness for C4: the fully valid record, where the probe queue is
empty, goes straight to the review. -/
theorem missing_fields_queue_witness :
    rulesAcceptNext pComplete t0 = LegacyState.waiting_for_review :=
  missing_fields_queue.2.1 pComplete t0 (by decide)

/-- Claim C6: an input rejected by the validator of the awaited field
leaves the conversation state, the pending queue and the user store
untouched, and the handler merely re-prompts (the `BirthResult`
constructors carry the distinct rejection reasons); concretely the text
31.02.2020 is rejected as a nonexistent calendar date and the state
remains awaiting the birth date. -/
theorem rejected_input_is_local :
    (∀ (s : List Char) (today : Date),
        (∀ d, birthDateCheck s today ≠ BirthResult.ok d) →
        reg_process_birth_date s today = (RegState.waiting_for_birth_date, none)) ∧
    (∀ (f : Field) (rest : List Field) (s : List Char) (today : Date),
        (((f = Field.first_name ∨ f = Field.last_name) ∧ processName s = none) ∨
         (f = Field.birth_date ∧ ∀ d, birthDateCheck s today ≠ BirthResult.ok d) ∨
         (f = Field.email ∧ processEmail s = none)) →
        process_field_input (f :: rest) s today =
          (f :: rest, none, LegacyState.waiting_for_field)) ∧
    birthDateCheck ['3', '1', '.', '0', '2', '.', '2', '0', '2', '0'] t0 = BirthResult.badDate ∧
    reg_process_birth_date ['3', '1', '.', '0', '2', '.', '2', '0', '2', '0'] t0 =
      (RegState.waiting_for_birth_date, none) := by
  refine ⟨?_, ?_, by decide, by decide⟩
  · intro s today hrej
    unfold reg_process_birth_date
    cases hb : birthDateCheck s today with
    | ok d => exact absurd hb (hrej d)
    | badFormat => rfl
    | badDate => rfl
    | future => rfl
    | tooYoung => rfl
    | tooOld => rfl
  · rintro f rest s today (⟨hf, hv⟩ | ⟨hf, hv⟩ | ⟨hf, hv⟩)
    · rcases hf with hf | hf <;> subst hf <;> simp [process_field_input, hv]
    · subst hf
      unfold process_field_input
      cases hb : birthDateCheck s today with
      | ok d => exact absurd hb (hv d)
      | badFormat => rfl
      | badDate => rfl
      | future => rfl
      | tooYoung => rfl
      | tooOld => rfl
    · subst hf
      simp [process_field_input, hv]

/-- Witness for C6: an invalid email while the email field heads the
queue leaves the queue, the store and the state untouched. -/
theorem rejected_input_is_local_witness :
    process_field_input [Field.email] ['x'] t0 =
      ([Field.email], none, LegacyState.waiting_for_field) :=
  rejected_input_is_local.2.1 Field.email [] ['x'] t0 (Or.inr (Or.inr ⟨rfl, by decide⟩))

/-- Claim C8: a structured contact whose embedded identifier equals the
current user's is normalized (a plus sign is prefixed exactly when
absent: a number already starting with one is stored unchanged, the
result always starts with one), persisted under the real `phone_number`
column, and the flow advances to the first-name step; a contact with a
mismatched identifier or any non-contact message re-prompts with no
write and no state change. -/
theorem contact_handler :
    (∀ (uid : Int) (phone : List Char),
        process_contact uid (ContactEvent.contact uid phone) =
          (some ("phone_number", FVal.s (some (normPhone phone))),
           RegState.waiting_for_first_name)) ∧
    (∀ phone : List Char, phone.head? = some '+' → normPhone phone = phone) ∧
    (∀ phone : List Char, phone.head? ≠ some '+' → normPhone phone = '+' :: phone) ∧
    (∀ phone : List Char, (normPhone phone).head? = some '+') ∧
    (∀ (u : UserRec) (now : Nat) (p : List Char),
        (update_user u now [("phone_number", FVal.s (some p))]).phone_number = some p) ∧
    (∀ (uid cuid : Int) (phone : List Char), cuid ≠ uid →
        process_contact uid (ContactEvent.contact cuid phone) =
          (none, RegState.waiting_for_contact)) ∧
    (∀ (uid : Int) (s : List Char),
        process_contact uid (ContactEvent.text s) = (none, RegState.waiting_for_contact)) := by
  refine ⟨?_, ?_, ?_, ?_, ?_, ?_, ?_⟩
  · intro uid phone
    simp [process_contact]
  · intro phone h
    simp [normPhone, h]
  · intro phone h
    simp [normPhone, h]
  · intro phone
    unfold normPhone
    by_cases h : phone.head? = some '+'
    · rw [if_pos h]
      exact h
    · rw [if_neg h]
      rfl
  · intro u now p
    rfl
  · intro uid cuid phone h
    simp [process_contact, h]
  · intro uid s
    rfl

/-- Witness for C8: a phone that already starts with a plus sign is
stored unchanged. -/
theorem contact_handler_witness :
    normPhone ['+', '7'] = ['+', '7'] :=
  contact_handler.2.1 ['+', '7'] (by decide)

/-- A key that names no attribute leaves the row untouched. -/
theorem setAttr_unknown {k : String} (hk : hasAttrB k = false) (u : UserRec) (v : FVal) :
    setAttr u k v = u := by
  unfold hasAttrB at hk
  simp only [Bool.or_eq_false_iff] at hk
  obtain ⟨⟨⟨⟨⟨⟨⟨⟨⟨⟨⟨⟨⟨⟨⟨h1, h2⟩, h3⟩, h4⟩, h5⟩, h6⟩, h7⟩, h8⟩, h9⟩, h10⟩,
    h11⟩, h12⟩, h13⟩, h14⟩, h15⟩, h16⟩ := hk
  unfold setAttr
  rw [h1, h2, h3, h4, h5, h6, h7, h8, h9, h10, h11, h12, h13, h14, h15, h16]
  simp only [Bool.false_eq_true, if_false]

/-- Folding a patch equals folding its recognised keys only. -/
theorem foldl_setAttr_filter (patch : Patch) :
    ∀ u : UserRec,
      patch.foldl (fun acc kv => setAttr acc kv.1 kv.2) u =
        (patch.filter fun kv => hasAttrB kv.1).foldl
          (fun acc kv => setAttr acc kv.1 kv.2) u := by
  induction patch with
  | nil =>
    intro u
    rfl
  | cons kv rest ih =>
    intro u
    cases hk : hasAttrB kv.1 with
    | true =>
      rw [List.foldl_cons, List.filter_cons]
      simp only [hk, if_true]
      rw [List.foldl_cons]
      exact ih _
    | false =>
      rw [List.foldl_cons, List.filter_cons]
      simp only [hk, Bool.false_eq_true, if_false]
      rw [setAttr_unknown hk]
      exact ih u

/-- Claim C9: `update_user` applies exactly the keys that name an
attribute of the user record — a patch acts like its restriction to
recognised keys, and a patch of one unrecognised key changes nothing but
the `updated_at` refresh; the updated row is returned, never an error. -/
theorem update_user_unknown_keys :
    (∀ (u : UserRec) (now : Nat) (patch : Patch),
        update_user u now patch =
          update_user u now (patch.filter fun kv => hasAttrB kv.1)) ∧
    (∀ (u : UserRec) (now : Nat) (k : String) (v : FVal), hasAttrB k = false →
        update_user u now [(k, v)] = { u with updated_at := now }) := by
  constructor
  · intro u now patch
    unfold update_user
    rw [foldl_setAttr_filter]
  · intro u now k v hk
    unfold update_user
    rw [List.foldl_cons, setAttr_unknown hk, List.foldl_nil]

/-- Witness for C9: a patch with a made-up key leaves every column
unchanged and only refreshes the update timestamp. -/
theorem update_user_unknown_keys_witness :
    update_user u0 7 [("frobnicate", FVal.b true)] = { u0 with updated_at := 7 } :=
  update_user_unknown_keys.2 u0 7 "frobnicate" (FVal.b true) (by decide)

/-- None of the keys the handlers use for user-entered names, consent
timestamps and the legacy flag names an attribute of the model. -/
theorem ghost_not_attr : ∀ k ∈ ghostKeys, hasAttrB k = false := by
  decide

/-- A patch of ghost keys only folds to the identity. -/
theorem foldl_setAttr_ghost (patch : Patch) :
    ∀ u : UserRec, (∀ kv ∈ patch, kv.1 ∈ ghostKeys) →
      patch.foldl (fun acc kv => setAttr acc kv.1 kv.2) u = u := by
  induction patch with
  | nil =>
    intro u _
    rfl
  | cons kv rest ih =>
    intro u hmem
    rw [List.foldl_cons,
      setAttr_unknown (ghost_not_attr kv.1 (hmem kv (List.mem_cons_self kv rest)))]
    exact ih u fun x hx => hmem x (List.mem_cons_of_mem kv hx)

/-- Claim C10: the `User` model defines no attribute named
first_name_input, last_name_input, rules_accepted_at,
notifications_allowed_at or is_legacy, so every `update_user` call whose
patch uses only those keys (the name writes of both flows, the legacy
consent timestamps, the legacy terminal flag is_legacy=false) leaves
every declared column unchanged except the `updated_at` refresh. -/
theorem ghost_fields_never_persisted :
    (∀ k ∈ ghostKeys, hasAttrB k = false) ∧
    (∀ (u : UserRec) (now : Nat) (patch : Patch),
        (∀ kv ∈ patch, kv.1 ∈ ghostKeys) →
        update_user u now patch = { u with updated_at := now }) ∧
    (∀ (u : UserRec) (now : Nat) (v w : FVal),
        update_user u now [("first_name_input", v), ("last_name_input", w)] =
          { u with updated_at := now }) ∧
    (∀ (u : UserRec) (now : Nat) (v : FVal),
        update_user u now [("is_legacy", v)] = { u with updated_at := now }) := by
  refine ⟨ghost_not_attr, ?_, ?_, ?_⟩
  · intro u now patch hmem
    unfold update_user
    rw [foldl_setAttr_ghost patch u hmem]
  · intro u now v w
    cases v <;> cases w <;> rfl
  · intro u now v
    cases v <;> rfl

/-- Witness for C10: the legacy terminal patch keys `is_legacy` and
`first_name_input` change nothing but the update timestamp. -/
theorem ghost_fields_never_persisted_witness :
    update_user u0 9 [("is_legacy", FVal.b false), ("first_name_input", FVal.s (some ['A']))] =
      { u0 with updated_at := 9 } :=
  ghost_fields_never_persisted.2.1 u0 9
    [("is_legacy", FVal.b false), ("first_name_input", FVal.s (some ['A']))] (by decide)

/-- Claim C2 (code bug): on the notifications choice the fresh flow's
patch carries only the boolean and is_registered (no timestamp at all),
and the legacy flow's `notifications_allowed_at` timestamp and
`is_legacy = False` keys are dropped by the store because the model
lacks those attributes — only the boolean (and the `updated_at` refresh)
reaches the row; the session is cleared and the menu hand-off runs
exactly once in both flows. -/
theorem legacy_consent_persistence_gap :
    (reg_notifications_consent true).patch =
      [("notifications_allowed", FVal.b true), ("is_registered", FVal.b true)] ∧
    update_user u0 7 (reg_notifications_consent true).patch =
      { u0 with notifications_allowed := true, is_registered := true, updated_at := 7 } ∧
    update_user u0 7 (legacy_notifications_consent true 99).patch =
      { u0 with notifications_allowed := true, updated_at := 7 } ∧
    hasAttrB "notifications_allowed_at" = false ∧
    hasAttrB "is_legacy" = false ∧
    (reg_notifications_consent true).sessionCleared = true ∧
    (reg_notifications_consent true).menuCalls = 1 ∧
    (legacy_notifications_consent true 99).sessionCleared = true ∧
    (legacy_notifications_consent true 99).menuCalls = 1 := by
  decide

/-- Claim C7 (code bug): a valid edit submission does return
unconditionally to the review without touching the pending queue, but
for the name fields the write uses the `first_name_input` key, which the
model lacks, so the store drops it and the stored row (hence the review
rendering read from it) keeps the old value. -/
theorem edit_round_trip_not_persisted :
    process_edit_field EditTarget.e_first_name ['А', 'н', 'н', 'а'] t0 =
      (some ("first_name_input", FVal.s (some ['А', 'н', 'н', 'а'])),
       LegacyState.waiting_for_review) ∧
    reg_process_edit_first_name ['А', 'н', 'н', 'а'] =
      (some ("first_name_input", FVal.s (some ['А', 'н', 'н', 'а'])),
       RegState.waiting_for_review) ∧
    update_user u0 7 [("first_name_input", FVal.s (some ['А', 'н', 'н', 'а']))] =
      { u0 with updated_at := 7 } ∧
    hasAttrB "first_name_input" = false := by
  decide

end Bot
